import Mathlib

/-!
Verification of the warehouse inventory manager (src/inventory_manager.py,
src/analytics.py, src/cli.py) against its natural-language specification.

Records are CSV rows held as field maps; numeric fields are parsed with
int()/float() at each use.  We embed a record as a typed structure whose
numeric fields carry the parsed values (Int for int() fields, Rat for the
float() unit price, an abstract Nat stamp for the last_updated date).  The
in-memory inventory is a Lean list in store order; the persistent CSV file
is a second list, written by save_inventory.
-/

namespace Inventory

/-- One inventory record (one CSV row of warehouse_inventory.csv). -/
structure Record where
  product_id : String
  product_name : String
  category : String
  quantity : Int
  unit_price : Rat
  reorder_level : Int
  supplier : String
  warehouse_location : String
  last_updated : Nat
deriving DecidableEq, Repr

/-- A partial field map passed to update_product (`updates: Dict`): each
field is either absent from the dict (none) or carries a new value. -/
structure Updates where
  product_id : Option String := none
  product_name : Option String := none
  category : Option String := none
  quantity : Option Int := none
  unit_price : Option Rat := none
  reorder_level : Option Int := none
  supplier : Option String := none
  warehouse_location : Option String := none
deriving Repr

/-- `product.update(updates)`: merge the provided fields into the record;
fields absent from the map are untouched.  last_updated is left alone here
because update_product overwrites it right after the merge. -/
def applyUpdates (p : Record) (u : Updates) : Record :=
  { product_id := u.product_id.getD p.product_id
    product_name := u.product_name.getD p.product_name
    category := u.category.getD p.category
    quantity := u.quantity.getD p.quantity
    unit_price := u.unit_price.getD p.unit_price
    reorder_level := u.reorder_level.getD p.reorder_level
    supplier := u.supplier.getD p.supplier
    warehouse_location := u.warehouse_location.getD p.warehouse_location
    last_updated := p.last_updated }

/-- The manager state: the in-memory list `self.inventory` plus the contents
of the backing CSV file written by save_inventory. -/
structure State where
  inventory : List Record
  persisted : List Record
deriving DecidableEq, Repr

/-- save_inventory: `if not self.inventory: return` — when the in-memory list
is empty the write is skipped (only a warning is printed); otherwise the whole
list is written to the file. -/
def save_inventory (s : State) : State :=
  if s.inventory.isEmpty then s
  else { inventory := s.inventory, persisted := s.inventory }

/-- add_product: stamp last_updated with the current date, append, save.
There is no duplicate-id or field validation in this method. -/
def add_product (s : State) (product_data : Record) (now : Nat) : State :=
  let r := { product_data with last_updated := now }
  save_inventory { s with inventory := s.inventory ++ [r] }

/-- get_product: linear scan, returns the first record whose product_id
matches, none otherwise. -/
def get_product (inv : List Record) (pid : String) : Option Record :=
  match inv with
  | [] => none
  | p :: rest => if p.product_id = pid then some p else get_product rest pid

/-- The loop body of update_product: walk the list, merge the updates into
the first record whose product_id matches and restamp its last_updated;
none when no record matches. -/
def updateFirst (inv : List Record) (pid : String) (u : Updates) (now : Nat) :
    Option (List Record) :=
  match inv with
  | [] => none
  | p :: rest =>
    if p.product_id = pid then
      some ({ applyUpdates p u with last_updated := now } :: rest)
    else
      match updateFirst rest pid u now with
      | some rest2 => some (p :: rest2)
      | none => none

/-- update_product: update the first matching record in place, save, and
return True; return False (store untouched) when no record matches. -/
def update_product (s : State) (pid : String) (u : Updates) (now : Nat) :
    Bool × State :=
  match updateFirst s.inventory pid u now with
  | some inv2 => (true, save_inventory { s with inventory := inv2 })
  | none => (false, s)

/-- delete_product: keep every record whose product_id differs; save and
return True when the length dropped, otherwise report not-found. -/
def delete_product (s : State) (pid : String) : Bool × State :=
  let inv2 := s.inventory.filter (fun p => p.product_id != pid)
  if inv2.length < s.inventory.length then
    (true, save_inventory { s with inventory := inv2 })
  else
    (false, s)

/-- update_quantity: look up the product, compute current + change; reject
with no mutation when the result is negative, otherwise store the new
quantity through update_product and return True. -/
def update_quantity (s : State) (pid : String) (change : Int) (now : Nat) :
    Bool × State :=
  match get_product s.inventory pid with
  | some p =>
    let new_qty := p.quantity + change
    if new_qty < 0 then (false, s)
    else (true, (update_product s pid { quantity := some new_qty } now).2)
  | none => (false, s)

/-- get_low_stock_items: the loop appends every record with
quantity <= reorder_level to an accumulator list, in store order. -/
def get_low_stock_items (inv : List Record) : List Record :=
  inv.foldl (fun low_stock p =>
    if p.quantity ≤ p.reorder_level then low_stock ++ [p] else low_stock) []

/-- get_total_inventory_value: running sum of quantity * unit_price. -/
def get_total_inventory_value (inv : List Record) : Rat :=
  inv.foldl (fun total p => total + (p.quantity : Rat) * p.unit_price) 0

/-- The per-category statistics record of get_category_summary. -/
structure CatStats where
  count : Nat
  total_quantity : Int
  total_value : Rat
deriving DecidableEq, Repr

/-- One iteration of the get_category_summary loop over the summary dict
(modelled as an insertion-ordered association list, as Python dicts are):
create a zero entry for an unseen category, then add the product in. -/
def addToSummary (summary : List (String × CatStats)) (p : Record) :
    List (String × CatStats) :=
  match summary with
  | [] => [(p.category,
      { count := 1
        total_quantity := p.quantity
        total_value := (p.quantity : Rat) * p.unit_price })]
  | (c, stats) :: rest =>
    if c = p.category then
      (c, { count := stats.count + 1
            total_quantity := stats.total_quantity + p.quantity
            total_value := stats.total_value + (p.quantity : Rat) * p.unit_price })
        :: rest
    else
      (c, stats) :: addToSummary rest p

/-- get_category_summary: fold the loop body over the store. -/
def get_category_summary (inv : List Record) : List (String × CatStats) :=
  inv.foldl addToSummary []

/-- Python substring containment `needle in haystack` on character lists:
the empty needle occurs in everything. -/
def occursIn (needle haystack : List Char) : Bool :=
  match haystack with
  | [] => needle.isEmpty
  | c :: t => needle.isPrefixOf (c :: t) || occursIn needle t

/-- search_products: lowercase the keyword once, then keep every record
whose lowercased product_name or category contains it, in store order. -/
def search_products (inv : List Record) (keyword : String) : List Record :=
  let kw := keyword.toLower.toList
  inv.foldl (fun results p =>
    if occursIn kw p.product_name.toLower.toList
        || occursIn kw p.category.toLower.toList
    then results ++ [p] else results) []

/-- The four stock-level buckets of show_stock_distribution. -/
inductive StockLevel
  | critical
  | low
  | normal
  | high
deriving DecidableEq, Repr

/-- The if/elif chain of show_stock_distribution.  `reorder * 0.25` is an
exact binary float product of an int and 0.25, so it is modelled as the
exact rational `reorder / 4`; `reorder * 2` stays integer arithmetic as in
the source. -/
def classifyStock (p : Record) : StockLevel :=
  if p.quantity = 0 then .critical
  else if (p.quantity : Rat) ≤ (p.reorder_level : Rat) * (1 / 4) then .critical
  else if p.quantity ≤ p.reorder_level then .low
  else if p.quantity ≤ p.reorder_level * 2 then .normal
  else .high

/-- The four per-bucket lists built by the show_stock_distribution loop. -/
structure Distribution where
  critical : List Record
  low : List Record
  normal : List Record
  high : List Record
deriving DecidableEq, Repr

/-- One iteration of the show_stock_distribution loop: append the record to
the single bucket selected by the if/elif chain. -/
def addToBucket (d : Distribution) (p : Record) : Distribution :=
  match classifyStock p with
  | .critical => { d with critical := d.critical ++ [p] }
  | .low => { d with low := d.low ++ [p] }
  | .normal => { d with normal := d.normal ++ [p] }
  | .high => { d with high := d.high ++ [p] }

/-- show_stock_distribution: classify every record of the store. -/
def stock_distribution (inv : List Record) : Distribution :=
  inv.foldl addToBucket ⟨[], [], [], []⟩

/-- Inventory value of one record, the sort key of
show_top_products_by_value. -/
def productValue (p : Record) : Rat :=
  (p.quantity : Rat) * p.unit_price

/-- Insert a record in front of the first strictly smaller-valued element.
This is the insertion step of a stable descending sort: the inserted record
comes from earlier in the store than everything already in the list, so it
goes before any element of equal value. -/
def insertDesc (p : Record) (l : List Record) : List Record :=
  match l with
  | [] => [p]
  | q :: rest =>
    if productValue p ≥ productValue q then p :: q :: rest
    else q :: insertDesc p rest

/-- Semantics of `list.sort(key=value, reverse=True)`: a stable sort into
non-increasing order of productValue. -/
def sortByValueDesc (inv : List Record) : List Record :=
  match inv with
  | [] => []
  | p :: rest => insertDesc p (sortByValueDesc rest)

/-- show_top_products_by_value: sort the store by value descending (stable)
and keep the first top_n rows. -/
def show_top_products_by_value (inv : List Record) (top_n : Nat) : List Record :=
  (sortByValueDesc inv).take top_n

/-- handle_add_product (src/cli.py): before calling add_product the CLI
checks `if manager.get_product(product_data[...])` and refuses the add when
the id is already present.  (The field-collection and non-empty validation
of the handler are not modelled; only its duplicate-id guard.) -/
def handle_add_product (s : State) (product_data : Record) (now : Nat) : State :=
  match get_product s.inventory product_data.product_id with
  | some _ => s
  | none => add_product s product_data now

/-- All product ids in the store are distinct. -/
def uniqueIds (inv : List Record) : Prop :=
  (inv.map Record.product_id).Nodup

/-- `sum(category_summary()[c].total_value for all c)`: the sum of the
total_value statistics over all categories of a summary. -/
def sumValues (s : List (String × CatStats)) : Rat :=
  (s.map (fun e => e.2.total_value)).sum

/-- Sample record, qty 10 at price 100, reorder level 5. -/
def sampleA : Record :=
  ⟨"P001", "Widget", "Tools", 10, 100, 5, "Acme", "A1", 0⟩

/-- Sample record, qty 5 at price 50, reorder level 5. -/
def sampleB : Record :=
  ⟨"P002", "Gadget", "Tools", 5, 50, 5, "Acme", "A2", 0⟩

/-- A second record carrying the product_id of sampleA. -/
def dupA : Record :=
  ⟨"P001", "Clone", "Tools", 3, 7, 1, "Bcme", "B1", 0⟩

/-- Sample record at exactly its reorder level. -/
def lowSample : Record :=
  ⟨"P100", "Bolt", "Hardware", 5, 2, 5, "Acme", "B2", 0⟩

/-- Sample record with reorder_level 0 and positive quantity. -/
def zeroReorder : Record :=
  ⟨"P200", "Cam", "Optics", 3, 2, 0, "Acme", "C1", 0⟩

lemma save_inventory_inventory (s : State) :
    (save_inventory s).inventory = s.inventory := by
  unfold save_inventory
  split <;> rfl

lemma save_inventory_persisted (s : State) (h : s.inventory ≠ []) :
    (save_inventory s).persisted = s.inventory := by
  unfold save_inventory
  simp [List.isEmpty_iff, h]

lemma low_stock_aux (l acc : List Record) :
    l.foldl (fun low_stock p =>
        if p.quantity ≤ p.reorder_level then low_stock ++ [p] else low_stock) acc
      = acc ++ l.filter (fun p => decide (p.quantity ≤ p.reorder_level)) := by
  induction l generalizing acc with
  | nil => simp
  | cons p t ih =>
    by_cases h : p.quantity ≤ p.reorder_level <;>
      simp [List.foldl_cons, List.filter_cons, h, ih]

/-- C8: low_stock_items returns exactly the records with
quantity <= reorder_level, in store order, and the threshold is inclusive:
a record with quantity == reorder_level is in the result. -/
theorem get_low_stock_items_spec (inv : List Record) :
    get_low_stock_items inv
        = inv.filter (fun p => decide (p.quantity ≤ p.reorder_level)) ∧
    ∀ p ∈ inv, p.quantity = p.reorder_level → p ∈ get_low_stock_items inv := by
  have he : get_low_stock_items inv
      = inv.filter (fun p => decide (p.quantity ≤ p.reorder_level)) := by
    simpa [get_low_stock_items] using low_stock_aux inv []
  refine ⟨he, fun p hp hq => ?_⟩
  rw [he, List.mem_filter]
  exact ⟨hp, by simp [hq]⟩

/-- Witness for C8: lowSample sits exactly at its reorder level and is
reported as low stock. -/
theorem get_low_stock_items_spec_witness :
    lowSample ∈ get_low_stock_items [lowSample] :=
  (get_low_stock_items_spec [lowSample]).2 lowSample (by simp) rfl

lemma occursIn_nil (h : List Char) : occursIn [] h = true := by
  cases h <;> simp [occursIn, List.isPrefixOf]

lemma search_nil_aux (l acc : List Record) :
    l.foldl (fun results p =>
        if occursIn [] p.product_name.toLower.toList
            || occursIn [] p.category.toLower.toList
        then results ++ [p] else results) acc = acc ++ l := by
  induction l generalizing acc with
  | nil => simp
  | cons p t ih =>
    have hc : (occursIn [] p.product_name.toLower.toList
        || occursIn [] p.category.toLower.toList) = true := by
      simp [occursIn_nil]
    rw [List.foldl_cons, if_pos hc, ih]
    simp

/-- C10: searching with the empty keyword returns the whole store in order
(the empty string is a substring of every lowercased name), and the search
is a pure function of the store. -/
theorem search_products_empty_keyword (inv : List Record) :
    search_products inv "" = inv := by
  have hkw : "".toLower.toList = ([] : List Char) := by
    simp [String.toLower, String.map_eq]
  unfold search_products
  rw [hkw]
  simpa using search_nil_aux inv []

lemma sumValues_nil : sumValues [] = 0 := rfl

lemma sumValues_cons (e : String × CatStats) (s : List (String × CatStats)) :
    sumValues (e :: s) = e.2.total_value + sumValues s := by
  simp [sumValues]

lemma sumValues_addToSummary (s : List (String × CatStats)) (p : Record) :
    sumValues (addToSummary s p)
      = sumValues s + (p.quantity : Rat) * p.unit_price := by
  induction s with
  | nil => simp [addToSummary, sumValues]
  | cons e rest ih =>
    obtain ⟨c, stats⟩ := e
    by_cases h : c = p.category
    · simp [addToSummary, h, sumValues_cons]
      ring
    · simp [addToSummary, h, sumValues_cons, ih]
      ring

lemma foldl_addToSummary (l : List Record) :
    ∀ s, sumValues (l.foldl addToSummary s)
      = sumValues s + (l.map productValue).sum := by
  induction l with
  | nil => intro s; simp
  | cons p t ih =>
    intro s
    rw [List.foldl_cons, ih, sumValues_addToSummary]
    simp [productValue]
    ring

lemma total_aux (l : List Record) : ∀ t : Rat,
    l.foldl (fun total p => total + (p.quantity : Rat) * p.unit_price) t
      = t + (l.map productValue).sum := by
  induction l with
  | nil => intro t; simp
  | cons p u ih =>
    intro t
    rw [List.foldl_cons, ih]
    simp [productValue]
    ring

/-- C6: summing total_value over the entries of category_summary gives
exactly total inventory value. -/
theorem category_summary_value_consistent (inv : List Record) :
    sumValues (get_category_summary inv) = get_total_inventory_value inv := by
  unfold get_category_summary get_total_inventory_value
  rw [foldl_addToSummary, total_aux]
  simp [sumValues_nil]

lemma foldl_addToBucket (l : List Record) : ∀ d : Distribution,
    (l.foldl addToBucket d).critical
        = d.critical ++ l.filter (fun p => classifyStock p == StockLevel.critical) ∧
    (l.foldl addToBucket d).low
        = d.low ++ l.filter (fun p => classifyStock p == StockLevel.low) ∧
    (l.foldl addToBucket d).normal
        = d.normal ++ l.filter (fun p => classifyStock p == StockLevel.normal) ∧
    (l.foldl addToBucket d).high
        = d.high ++ l.filter (fun p => classifyStock p == StockLevel.high) := by
  induction l with
  | nil => intro d; simp
  | cons p t ih =>
    intro d
    obtain ⟨ihc, ihl, ihn, ihh⟩ := ih (addToBucket d p)
    rw [List.foldl_cons]
    cases hc : classifyStock p <;>
      simp [addToBucket, hc, List.filter_cons] at ihc ihl ihn ihh ⊢ <;>
      exact ⟨ihc, ihl, ihn, ihh⟩

lemma classify_filter_lengths (l : List Record) :
    (l.filter (fun p => classifyStock p == StockLevel.critical)).length +
    (l.filter (fun p => classifyStock p == StockLevel.low)).length +
    (l.filter (fun p => classifyStock p == StockLevel.normal)).length +
    (l.filter (fun p => classifyStock p == StockLevel.high)).length = l.length := by
  induction l with
  | nil => rfl
  | cons p t ih =>
    cases hc : classifyStock p <;> simp [List.filter_cons, hc] <;> omega

lemma classify_zero_reorder (p : Record) (h0 : p.reorder_level = 0) :
    (0 < p.quantity → classifyStock p = StockLevel.high) ∧
    (p.quantity = 0 → classifyStock p = StockLevel.critical) := by
  constructor
  · intro hq
    unfold classifyStock
    rw [h0]
    rw [if_neg (by omega), if_neg ?_, if_neg (by omega), if_neg (by omega)]
    have : (0 : Rat) < (p.quantity : Rat) := by exact_mod_cast hq
    push_cast
    nlinarith
  · intro hq
    unfold classifyStock
    rw [if_pos hq]

/-- C5: the stock_distribution buckets are the filters of the store by the
classification rule, no record lands in two buckets and none is omitted
(the bucket lengths sum to the store length and, for a record in the store,
membership in a bucket is equivalent to being classified there), and with
reorder_level = 0 any positive quantity is high and quantity 0 is
critical. -/
theorem stock_distribution_partition (inv : List Record) :
    ((stock_distribution inv).critical
        = inv.filter (fun p => classifyStock p == StockLevel.critical)) ∧
    ((stock_distribution inv).low
        = inv.filter (fun p => classifyStock p == StockLevel.low)) ∧
    ((stock_distribution inv).normal
        = inv.filter (fun p => classifyStock p == StockLevel.normal)) ∧
    ((stock_distribution inv).high
        = inv.filter (fun p => classifyStock p == StockLevel.high)) ∧
    ((stock_distribution inv).critical.length + (stock_distribution inv).low.length
        + (stock_distribution inv).normal.length + (stock_distribution inv).high.length
        = inv.length) ∧
    (∀ p ∈ inv,
      (p ∈ (stock_distribution inv).critical ↔ classifyStock p = StockLevel.critical) ∧
      (p ∈ (stock_distribution inv).low ↔ classifyStock p = StockLevel.low) ∧
      (p ∈ (stock_distribution inv).normal ↔ classifyStock p = StockLevel.normal) ∧
      (p ∈ (stock_distribution inv).high ↔ classifyStock p = StockLevel.high)) ∧
    (∀ p : Record, p.reorder_level = 0 →
      (0 < p.quantity → classifyStock p = StockLevel.high) ∧
      (p.quantity = 0 → classifyStock p = StockLevel.critical)) := by
  obtain ⟨hc, hl, hn, hh⟩ := foldl_addToBucket inv ⟨[], [], [], []⟩
  simp only [List.nil_append] at hc hl hn hh
  have hcc : (stock_distribution inv).critical
      = inv.filter (fun p => classifyStock p == StockLevel.critical) := hc
  have hll : (stock_distribution inv).low
      = inv.filter (fun p => classifyStock p == StockLevel.low) := hl
  have hnn : (stock_distribution inv).normal
      = inv.filter (fun p => classifyStock p == StockLevel.normal) := hn
  have hhh : (stock_distribution inv).high
      = inv.filter (fun p => classifyStock p == StockLevel.high) := hh
  refine ⟨hcc, hll, hnn, hhh, ?_, ?_, classify_zero_reorder⟩
  · rw [hcc, hll, hnn, hhh]
    exact classify_filter_lengths inv
  · intro p hp
    rw [hcc, hll, hnn, hhh]
    simp [List.mem_filter, hp]

/-- Witness for C5: a positive-quantity record with reorder_level 0 is
classified high and sits in the high bucket of its store. -/
theorem stock_distribution_partition_witness :
    classifyStock zeroReorder = StockLevel.high ∧
    (zeroReorder ∈ (stock_distribution [zeroReorder]).high
      ↔ classifyStock zeroReorder = StockLevel.high) := by
  have h := stock_distribution_partition [zeroReorder]
  exact ⟨(h.2.2.2.2.2.2 zeroReorder rfl).1 (by decide),
    (h.2.2.2.2.2.1 zeroReorder (by simp)).2.2.2⟩

lemma perm_insertDesc (p : Record) (l : List Record) :
    List.Perm (insertDesc p l) (p :: l) := by
  induction l with
  | nil => exact List.Perm.refl _
  | cons q t ih =>
    by_cases h : productValue p ≥ productValue q
    · simp only [insertDesc, if_pos h]
      exact List.Perm.refl _
    · simp only [insertDesc, if_neg h]
      exact (ih.cons q).trans (List.Perm.swap p q t)

lemma perm_sortByValueDesc (inv : List Record) :
    List.Perm (sortByValueDesc inv) inv := by
  induction inv with
  | nil => exact List.Perm.refl _
  | cons p t ih => exact (perm_insertDesc p (sortByValueDesc t)).trans (ih.cons p)

lemma mem_insertDesc {a p : Record} {l : List Record} :
    a ∈ insertDesc p l ↔ a = p ∨ a ∈ l := by
  rw [(perm_insertDesc p l).mem_iff]
  simp

lemma pairwise_insertDesc (p : Record) (l : List Record)
    (h : l.Pairwise (fun a b => productValue b ≤ productValue a)) :
    (insertDesc p l).Pairwise (fun a b => productValue b ≤ productValue a) := by
  induction l with
  | nil => simp [insertDesc]
  | cons q t ih =>
    obtain ⟨hq, ht⟩ := List.pairwise_cons.mp h
    by_cases hge : productValue p ≥ productValue q
    · simp only [insertDesc, if_pos hge]
      refine List.pairwise_cons.mpr ⟨?_, h⟩
      intro b hb
      rcases List.mem_cons.mp hb with rfl | hbt
      · exact hge
      · exact le_trans (hq b hbt) hge
    · simp only [insertDesc, if_neg hge]
      refine List.pairwise_cons.mpr ⟨?_, ih ht⟩
      intro b hb
      rcases mem_insertDesc.mp hb with rfl | hbt
      · exact le_of_lt (lt_of_not_ge hge)
      · exact hq b hbt

lemma sorted_sortByValueDesc (inv : List Record) :
    (sortByValueDesc inv).Pairwise (fun a b => productValue b ≤ productValue a) := by
  induction inv with
  | nil => simp [sortByValueDesc]
  | cons p t ih => exact pairwise_insertDesc p (sortByValueDesc t) ih

lemma insertDesc_cons_ge (p q : Record) (t : List Record)
    (hge : productValue p ≥ productValue q) :
    insertDesc p (q :: t) = p :: q :: t := by
  simp [insertDesc, hge]

lemma insertDesc_cons_lt (p q : Record) (t : List Record)
    (hge : ¬ productValue p ≥ productValue q) :
    insertDesc p (q :: t) = q :: insertDesc p t := by
  simp [insertDesc, hge]

lemma filter_insertDesc (p : Record) (l : List Record) (v : Rat) :
    (insertDesc p l).filter (fun q => productValue q == v) =
      if productValue p = v then p :: l.filter (fun q => productValue q == v)
      else l.filter (fun q => productValue q == v) := by
  induction l with
  | nil =>
    by_cases h : productValue p = v <;>
      simp [insertDesc, List.filter_cons, beq_iff_eq, h]
  | cons q t ih =>
    by_cases hge : productValue p ≥ productValue q
    · rw [insertDesc_cons_ge p q t hge]
      by_cases h : productValue p = v <;>
        simp [List.filter_cons, beq_iff_eq, h]
    · rw [insertDesc_cons_lt p q t hge]
      by_cases h : productValue p = v
      · have hq : ¬ (productValue q = v) := fun hqv =>
          hge (le_of_eq (hqv.trans h.symm))
        simp [List.filter_cons, beq_iff_eq, hq, ih, h]
      · simp [List.filter_cons, beq_iff_eq, ih, h]

lemma stable_sortByValueDesc (inv : List Record) (v : Rat) :
    (sortByValueDesc inv).filter (fun q => productValue q == v) =
      inv.filter (fun q => productValue q == v) := by
  induction inv with
  | nil => rfl
  | cons p t ih =>
    by_cases h : productValue p = v <;>
      simp [sortByValueDesc, filter_insertDesc, h, List.filter_cons, ih]

/-- C7: top products by value is the take of a stable descending sort of
the store: the sorted sequence is a permutation of the store, the first n
rows are non-increasing in value, records of equal value keep their
original store order (filtering by any fixed value commutes with the sort),
and the top n is a prefix of the top n+1. -/
theorem top_by_value_spec (inv : List Record) (n : Nat) :
    List.Perm (sortByValueDesc inv) inv ∧
    show_top_products_by_value inv n = (sortByValueDesc inv).take n ∧
    (show_top_products_by_value inv n).Pairwise
      (fun a b => productValue b ≤ productValue a) ∧
    (∀ v : Rat, (sortByValueDesc inv).filter (fun q => productValue q == v)
      = inv.filter (fun q => productValue q == v)) ∧
    show_top_products_by_value inv n
      = (show_top_products_by_value inv (n + 1)).take n := by
  refine ⟨perm_sortByValueDesc inv, rfl, ?_, fun v => stable_sortByValueDesc inv v, ?_⟩
  · exact List.Pairwise.sublist (List.take_sublist n _) (sorted_sortByValueDesc inv)
  · unfold show_top_products_by_value
    rw [List.take_take, Nat.min_eq_left (Nat.le_succ n)]

lemma get_product_append_first (pre post : List Record) (r : Record) (pid : String)
    (hpre : ∀ q ∈ pre, q.product_id ≠ pid) (hr : r.product_id = pid) :
    get_product (pre ++ r :: post) pid = some r := by
  induction pre with
  | nil => simp [get_product, hr]
  | cons q t ih =>
    have hq : q.product_id ≠ pid := hpre q (by simp)
    rw [List.cons_append]
    simp only [get_product, if_neg hq]
    exact ih (fun x hx => hpre x (by simp [hx]))

lemma updateFirst_append (pre post : List Record) (r : Record) (pid : String)
    (u : Updates) (now : Nat)
    (hpre : ∀ q ∈ pre, q.product_id ≠ pid) (hr : r.product_id = pid) :
    updateFirst (pre ++ r :: post) pid u now =
      some (pre ++ { applyUpdates r u with last_updated := now } :: post) := by
  induction pre with
  | nil => simp [updateFirst, hr]
  | cons q t ih =>
    have hq : q.product_id ≠ pid := hpre q (by simp)
    rw [List.cons_append]
    simp only [updateFirst, if_neg hq]
    rw [ih (fun x hx => hpre x (by simp [hx]))]
    rfl

/-- C9: with several records sharing a product_id, get_product returns the
first match in store order, update_product rewrites only that first match
(the later duplicate is untouched), and delete_product removes every record
carrying the id while keeping every other record. -/
theorem duplicate_id_semantics (pre mid post ps : List Record) (r1 r2 : Record)
    (pid : String) (u : Updates) (now : Nat)
    (hpre : ∀ q ∈ pre, q.product_id ≠ pid)
    (h1 : r1.product_id = pid) (h2 : r2.product_id = pid) :
    get_product (pre ++ r1 :: (mid ++ r2 :: post)) pid = some r1 ∧
    update_product ⟨pre ++ r1 :: (mid ++ r2 :: post), ps⟩ pid u now =
      (true, save_inventory
        ⟨pre ++ { applyUpdates r1 u with last_updated := now } :: (mid ++ r2 :: post), ps⟩) ∧
    (delete_product ⟨pre ++ r1 :: (mid ++ r2 :: post), ps⟩ pid).1 = true ∧
    (∀ q ∈ (delete_product ⟨pre ++ r1 :: (mid ++ r2 :: post), ps⟩ pid).2.inventory,
      q.product_id ≠ pid) ∧
    (∀ q ∈ pre ++ r1 :: (mid ++ r2 :: post), q.product_id ≠ pid →
      q ∈ (delete_product ⟨pre ++ r1 :: (mid ++ r2 :: post), ps⟩ pid).2.inventory) := by
  have hget := get_product_append_first pre (mid ++ r2 :: post) r1 pid hpre h1
  have hupd := updateFirst_append pre (mid ++ r2 :: post) r1 pid u now hpre h1
  have hlt : ((pre ++ r1 :: (mid ++ r2 :: post)).filter
      (fun p => p.product_id != pid)).length
      < (pre ++ r1 :: (mid ++ r2 :: post)).length := by
    apply List.length_filter_lt_length_iff_exists.mpr
    exact ⟨r1, by simp, by simp [h1]⟩
  refine ⟨hget, ?_, ?_, ?_, ?_⟩
  · simp only [update_product]
    rw [hupd]
  · simp only [delete_product]
    rw [if_pos hlt]
  · intro q hq
    simp only [delete_product] at hq
    rw [if_pos hlt] at hq
    simp only [save_inventory_inventory] at hq
    have := (List.mem_filter.mp hq).2
    simpa [bne_iff_ne] using this
  · intro q hq hne
    simp only [delete_product]
    rw [if_pos hlt]
    simp only [save_inventory_inventory]
    exact List.mem_filter.mpr ⟨hq, by simpa [bne_iff_ne] using hne⟩

/-- Witness for C9 at a concrete two-record store sharing id P001: get
returns the first record and delete reports success. -/
theorem duplicate_id_semantics_witness :
    get_product [sampleA, dupA] "P001" = some sampleA ∧
    (delete_product ⟨[sampleA, dupA], []⟩ "P001").1 = true := by
  have h := duplicate_id_semantics [] [] [] [] sampleA dupA "P001" {} 3
    (by simp) rfl rfl
  exact ⟨h.1, h.2.2.1⟩

lemma get_product_eq_none (inv : List Record) (pid : String) :
    get_product inv pid = none ↔ ∀ p ∈ inv, p.product_id ≠ pid := by
  induction inv with
  | nil => simp [get_product]
  | cons q t ih =>
    by_cases hq : q.product_id = pid <;> simp [get_product, hq, ih]

/-- Counterexample to C1: add_product performs no duplicate check.  Adding
a second record with product_id P001 to a store that already holds P001
succeeds, grows the store from 1 to 2 records, and leaves two records
sharing a product_id. -/
theorem add_product_no_duplicate_check :
    ((add_product ⟨[sampleA], [sampleA]⟩ dupA 5).inventory.length = 2) ∧
    ¬ uniqueIds (add_product ⟨[sampleA], [sampleA]⟩ dupA 5).inventory := by
  constructor
  · rfl
  · unfold uniqueIds
    decide

/-- C1 as amended: add_product itself appends unconditionally (the store
always grows by one record); the duplicate-id rejection lives in the CLI
handler, which calls get_product first, leaves the store unchanged when
the id is present, and therefore preserves product_id uniqueness across
any sequence of adds that go through it. -/
theorem handle_add_preserves_unique_ids (s : State) (data : Record) (now : Nat) :
    ((add_product s data now).inventory.length = s.inventory.length + 1) ∧
    ((get_product s.inventory data.product_id).isSome →
      handle_add_product s data now = s) ∧
    (uniqueIds s.inventory → uniqueIds (handle_add_product s data now).inventory) := by
  refine ⟨?_, ?_, ?_⟩
  · unfold add_product
    rw [save_inventory_inventory]
    simp
  · intro hsome
    unfold handle_add_product
    cases hg : get_product s.inventory data.product_id with
    | some p => rfl
    | none => rw [hg] at hsome; simp at hsome
  · intro huniq
    unfold handle_add_product
    cases hg : get_product s.inventory data.product_id with
    | some p => exact huniq
    | none =>
      have hfresh : ∀ p ∈ s.inventory, p.product_id ≠ data.product_id :=
        (get_product_eq_none s.inventory data.product_id).mp hg
      unfold uniqueIds add_product
      rw [save_inventory_inventory]
      rw [List.map_append]
      simp only [List.map_cons, List.map_nil]
      rw [List.nodup_append]
      refine ⟨huniq, by simp, ?_⟩
      intro a ha hb
      simp only [List.mem_singleton] at hb
      obtain ⟨p, hp, rfl⟩ := List.mem_map.mp ha
      exact hfresh p hp (by simpa using hb)

/-- Witness for C1 (amended): at a store holding P001, the CLI-level add of
a second P001 is a no-op and uniqueness of ids survives it. -/
theorem handle_add_preserves_unique_ids_witness :
    handle_add_product ⟨[sampleA], [sampleA]⟩ dupA 5 = ⟨[sampleA], [sampleA]⟩ ∧
    uniqueIds (handle_add_product ⟨[sampleA], [sampleA]⟩ dupA 5).inventory := by
  have h := handle_add_preserves_unique_ids ⟨[sampleA], [sampleA]⟩ dupA 5
  exact ⟨h.2.1 (by decide), h.2.2 (by unfold uniqueIds; decide)⟩

lemma get_product_decomp (inv : List Record) (pid : String) (p : Record)
    (h : get_product inv pid = some p) :
    p.product_id = pid ∧
    ∃ pre post, inv = pre ++ p :: post ∧ ∀ q ∈ pre, q.product_id ≠ pid := by
  induction inv with
  | nil => simp [get_product] at h
  | cons q t ih =>
    by_cases hq : q.product_id = pid
    · simp only [get_product, if_pos hq, Option.some.injEq] at h
      subst h
      exact ⟨hq, [], t, by simp, by simp⟩
    · simp only [get_product, if_neg hq] at h
      obtain ⟨hpid, pre, post, heq, hpre⟩ := ih h
      refine ⟨hpid, q :: pre, post, by simp [heq], ?_⟩
      intro x hx
      rcases List.mem_cons.mp hx with rfl | hx2
      · exact hq
      · exact hpre x hx2

lemma applyUpdates_quantity (p : Record) (v : Int) (now : Nat) :
    ({ applyUpdates p { quantity := some v } with last_updated := now } : Record)
      = { p with quantity := v, last_updated := now } := rfl

/-- C3 as amended: when the store holds a record with the given id,
update_quantity computes current + delta; a negative result is rejected as
(False, unchanged state) with no mutation at all, and otherwise the first
matching record gets quantity current + delta (and a fresh last_updated),
the rest of the store is untouched, and the call returns True — a success
flag, not the numeric new quantity. -/
theorem update_quantity_spec (s : State) (pid : String) (change : Int)
    (now : Nat) (p : Record) (hg : get_product s.inventory pid = some p) :
    (p.quantity + change < 0 → update_quantity s pid change now = (false, s)) ∧
    (0 ≤ p.quantity + change →
      (update_quantity s pid change now).1 = true ∧
      ∃ pre post, s.inventory = pre ++ p :: post ∧
        (∀ q ∈ pre, q.product_id ≠ pid) ∧
        (update_quantity s pid change now).2.inventory =
          pre ++ { p with quantity := p.quantity + change, last_updated := now }
            :: post) := by
  obtain ⟨hpid, pre, post, heq, hpre⟩ := get_product_decomp s.inventory pid p hg
  constructor
  · intro hneg
    unfold update_quantity
    rw [hg]
    simp only [if_pos hneg]
  · intro hpos
    have hnotneg : ¬ (p.quantity + change < 0) := not_lt.mpr hpos
    have hfirst : updateFirst s.inventory pid { quantity := some (p.quantity + change) } now
        = some (pre ++ { p with quantity := p.quantity + change, last_updated := now }
            :: post) := by
      rw [heq, updateFirst_append pre post p pid _ now hpre hpid,
        applyUpdates_quantity]
    have hres : update_quantity s pid change now
        = (true, save_inventory
            ⟨pre ++ { p with quantity := p.quantity + change, last_updated := now }
              :: post, s.persisted⟩) := by
      unfold update_quantity
      rw [hg]
      simp only [if_neg hnotneg, update_product, hfirst]
    rw [hres]
    exact ⟨rfl, pre, post, heq, hpre, by rw [save_inventory_inventory]⟩

/-- Counterexample to C3 on the returned value: two successful adjustments
with different resulting quantities (0 and 3) both return the same value
True — the operation returns a success flag, never the new quantity, while
the claim says the new value is returned. -/
theorem update_quantity_returns_flag :
    (update_quantity ⟨[sampleA], [sampleA]⟩ "P001" (-10) 7).1 = true ∧
    ((update_quantity ⟨[sampleA], [sampleA]⟩ "P001" (-10) 7).2.inventory.map
      Record.quantity = [0]) ∧
    (update_quantity ⟨[dupA], [dupA]⟩ "P001" 0 7).1 = true ∧
    ((update_quantity ⟨[dupA], [dupA]⟩ "P001" 0 7).2.inventory.map
      Record.quantity = [3]) := by
  refine ⟨rfl, by decide, rfl, by decide⟩

/-- Witness for C3 (amended): the concrete scenario of the spec —
adjusting P002 (qty 5) by -10 fails and leaves the state unchanged. -/
theorem update_quantity_spec_witness :
    update_quantity ⟨[sampleB], [sampleB]⟩ "P002" (-10) 7
      = (false, ⟨[sampleB], [sampleB]⟩) :=
  (update_quantity_spec ⟨[sampleB], [sampleB]⟩ "P002" (-10) 7 sampleB
    (by decide)).1 (by decide)

lemma mem_updateFirst (inv : List Record) (pid : String) (u : Updates)
    (now : Nat) (inv2 : List Record)
    (h : updateFirst inv pid u now = some inv2) :
    ∀ q ∈ inv2, q ∈ inv ∨
      ∃ p, p ∈ inv ∧ q = { applyUpdates p u with last_updated := now } := by
  induction inv generalizing inv2 with
  | nil => simp [updateFirst] at h
  | cons x t ih =>
    by_cases hx : x.product_id = pid
    · simp only [updateFirst, if_pos hx, Option.some.injEq] at h
      subst h
      intro q hq
      rcases List.mem_cons.mp hq with rfl | hqt
      · exact Or.inr ⟨x, by simp, rfl⟩
      · exact Or.inl (by simp [hqt])
    · simp only [updateFirst, if_neg hx] at h
      cases hrec : updateFirst t pid u now with
      | none => rw [hrec] at h; simp at h
      | some rest2 =>
        rw [hrec] at h
        simp only [Option.some.injEq] at h
        subst h
        intro q hq
        rcases List.mem_cons.mp hq with rfl | hqr
        · exact Or.inl (by simp)
        · rcases ih rest2 hrec q hqr with hmem | ⟨p, hp, hq2⟩
          · exact Or.inl (by simp [hmem])
          · exact Or.inr ⟨p, by simp [hp], hq2⟩

/-- Counterexample to C2: update_product applies an arbitrary field map
with no validation, so a single update mutation drives a quantity below
zero — starting from a store whose only record has quantity 10, the update
succeeds and the store then violates quantity >= 0. -/
theorem update_product_breaks_nonnegativity :
    ((update_product ⟨[sampleA], [sampleA]⟩ "P001"
        { quantity := some (-5) } 9).1 = true) ∧
    ¬ (∀ p ∈ (update_product ⟨[sampleA], [sampleA]⟩ "P001"
        { quantity := some (-5) } 9).2.inventory, 0 ≤ p.quantity) := by
  constructor
  · rfl
  · decide

/-- C2 as amended: only the quantity-adjustment path enforces
non-negativity — if every record of the store has quantity >= 0, then after
update_quantity (accepted or rejected) every record still has
quantity >= 0; add_product and update_product perform no such check. -/
theorem update_quantity_preserves_nonnegativity (s : State) (pid : String)
    (change : Int) (now : Nat)
    (hpos : ∀ p ∈ s.inventory, 0 ≤ p.quantity) :
    ∀ p ∈ (update_quantity s pid change now).2.inventory, 0 ≤ p.quantity := by
  unfold update_quantity
  cases hg : get_product s.inventory pid with
  | none => simpa using hpos
  | some p =>
    by_cases hneg : p.quantity + change < 0
    · simp only [if_pos hneg]
      exact hpos
    · simp only [if_neg hneg]
      unfold update_product
      cases hu : updateFirst s.inventory pid
          { quantity := some (p.quantity + change) } now with
      | none => simpa using hpos
      | some inv2 =>
        simp only [save_inventory_inventory]
        intro q hq
        rcases mem_updateFirst s.inventory pid _ now inv2 hu q hq with
          hmem | ⟨p2, _, rfl⟩
        · exact hpos q hmem
        · show 0 ≤ ({ applyUpdates p2 _ with last_updated := now } : Record).quantity
          rw [applyUpdates_quantity]
          show 0 ≤ p.quantity + change
          omega

/-- Witness for C2 (amended): concretely, after adjusting P002 (qty 5) by
-5 the resulting record still has non-negative quantity. -/
theorem update_quantity_preserves_nonnegativity_witness :
    0 ≤ ({ sampleB with quantity := 0, last_updated := 7 } : Record).quantity :=
  update_quantity_preserves_nonnegativity ⟨[sampleB], [sampleB]⟩ "P002" (-5) 7
    (by decide) { sampleB with quantity := 0, last_updated := 7 } (by decide)

lemma save_round (s : State) (h : s.inventory ≠ []) :
    (save_inventory s).persisted = (save_inventory s).inventory := by
  rw [save_inventory_persisted s h, save_inventory_inventory]

lemma updateFirst_ne_nil (inv : List Record) (pid : String) (u : Updates)
    (now : Nat) (inv2 : List Record)
    (h : updateFirst inv pid u now = some inv2) : inv2 ≠ [] := by
  cases inv with
  | nil => simp [updateFirst] at h
  | cons x t =>
    by_cases hx : x.product_id = pid
    · simp only [updateFirst, if_pos hx, Option.some.injEq] at h
      subst h
      simp
    · simp only [updateFirst, if_neg hx] at h
      cases hrec : updateFirst t pid u now with
      | none => rw [hrec] at h; simp at h
      | some r2 =>
        rw [hrec] at h
        simp only [Option.some.injEq] at h
        subst h
        simp

/-- Counterexample to C4: deleting the only record succeeds but
save_inventory refuses to write an empty store, so the in-memory store is
empty while the persisted file still holds the deleted record. -/
theorem delete_to_empty_skips_persistence :
    ((delete_product ⟨[sampleA], [sampleA]⟩ "P001").1 = true) ∧
    ((delete_product ⟨[sampleA], [sampleA]⟩ "P001").2.inventory = []) ∧
    ((delete_product ⟨[sampleA], [sampleA]⟩ "P001").2.persisted = [sampleA]) := by
  exact ⟨rfl, rfl, rfl⟩

/-- C4 as amended: every successful mutation whose resulting in-memory
store is non-empty is immediately followed by a full write, after which the
persisted sequence equals the in-memory sequence; add always leaves a
non-empty store, update and quantity adjustment succeed only on non-empty
stores, and only a delete that empties the store skips the write. -/
theorem mutations_persist (s : State) (data : Record) (pid : String)
    (u : Updates) (change : Int) (now : Nat) :
    ((add_product s data now).persisted = (add_product s data now).inventory) ∧
    ((update_product s pid u now).1 = true →
      (update_product s pid u now).2.persisted
        = (update_product s pid u now).2.inventory) ∧
    ((update_quantity s pid change now).1 = true →
      (update_quantity s pid change now).2.persisted
        = (update_quantity s pid change now).2.inventory) ∧
    ((delete_product s pid).1 = true →
      (delete_product s pid).2.inventory ≠ [] →
      (delete_product s pid).2.persisted = (delete_product s pid).2.inventory) := by
  refine ⟨?_, ?_, ?_, ?_⟩
  · unfold add_product
    exact save_round _ (by simp)
  · intro hflag
    cases hu : updateFirst s.inventory pid u now with
    | none =>
      have h0 : update_product s pid u now = (false, s) := by
        unfold update_product
        rw [hu]
      rw [h0] at hflag
      simp at hflag
    | some inv2 =>
      have h1 : update_product s pid u now
          = (true, save_inventory ⟨inv2, s.persisted⟩) := by
        unfold update_product
        rw [hu]
      rw [h1]
      exact save_round _ (updateFirst_ne_nil s.inventory pid u now inv2 hu)
  · intro hflag
    cases hg : get_product s.inventory pid with
    | none =>
      have h0 : update_quantity s pid change now = (false, s) := by
        unfold update_quantity
        rw [hg]
      rw [h0] at hflag
      simp at hflag
    | some p =>
      by_cases hneg : p.quantity + change < 0
      · have h0 : update_quantity s pid change now = (false, s) := by
          unfold update_quantity
          rw [hg]
          simp only [if_pos hneg]
        rw [h0] at hflag
        simp at hflag
      · obtain ⟨hpid, pre, post, heq, hpre⟩ := get_product_decomp s.inventory pid p hg
        have hu : updateFirst s.inventory pid
            { quantity := some (p.quantity + change) } now
            = some (pre ++ { applyUpdates p { quantity := some (p.quantity + change) }
                with last_updated := now } :: post) := by
          rw [heq]
          exact updateFirst_append pre post p pid _ now hpre hpid
        have h1 : update_quantity s pid change now
            = (true, save_inventory
                ⟨pre ++ { applyUpdates p { quantity := some (p.quantity + change) }
                  with last_updated := now } :: post, s.persisted⟩) := by
          unfold update_quantity
          rw [hg]
          simp only [if_neg hneg, update_product, hu]
        rw [h1]
        exact save_round _ (by simp)
  · intro hflag hne
    unfold delete_product at hflag hne ⊢
    by_cases hlt : (s.inventory.filter (fun p => p.product_id != pid)).length
        < s.inventory.length
    · rw [if_pos hlt] at hne ⊢
      exact save_round _ (by rwa [save_inventory_inventory] at hne)
    · rw [if_neg hlt] at hflag
      simp at hflag

/-- Witness for C4 (amended): a delete that leaves one record behind does
persist, and the file then matches memory. -/
theorem mutations_persist_witness :
    (delete_product ⟨[sampleA, sampleB], [sampleA, sampleB]⟩ "P001").2.persisted
      = (delete_product ⟨[sampleA, sampleB], [sampleA, sampleB]⟩ "P001").2.inventory :=
  (mutations_persist ⟨[sampleA, sampleB], [sampleA, sampleB]⟩ sampleA "P001" {} 0 7).2.2.2
    (by decide) (by decide)

end Inventory
